import Mathlib

/-!
Verification of the SmartStudy.AI study-session scheduler.

This file gives a shallow embedding of the two scheduling paths of the
repository and proves the stated properties about them:

- the CP-SAT constraint model built by SchedulingEngine.generate_schedule
  (src/backend/scheduler.py), embedded as a satisfaction predicate over
  integer start offsets together with the chunk decomposition and the
  urgency and priority scoring helpers;
- the greedy scheduling endpoint generate_schedule
  (src/backend/server.py, lines 639-749), embedded as a pure state-passing
  function over an explicit database value.

Times are modelled as whole minutes (Int).  The time origin of a greedy run
is midnight of the first day of the horizon; a recurring availability rule
on day k of the run denotes the window
[k*1440 + startMin, k*1440 + endMin).  Python floor division (the //
operator and timedelta.days) is embedded as Int division, which agrees
with floor division because every divisor in this code is positive.
-/

namespace SmartStudy

/-- Task status enum from schemas.py (TaskStatus). -/
inductive TaskStatus where
  | pending
  | inProgress
  | completed
  | overdue
deriving DecidableEq

/-- Session status enum from schemas.py (SessionStatus). -/
inductive SessionStatus where
  | planned
  | inProgress
  | completed
  | skipped
deriving DecidableEq

/-! ### Task decomposition (scheduler.py lines 62-66)

num_sessions = max(1, (estimated_minutes + preferred - 1) // preferred)
and the chunk with index i has duration
min(preferred, estimated_minutes - i * preferred). -/

/-- Number of chunks a task is split into (scheduler.py line 62). -/
def numSessions (pref est : Int) : Int :=
  max 1 ((est + pref - 1) / pref)

/-- Duration of the chunk with index i (scheduler.py line 66). -/
def sessionDuration (pref est : Int) (i : Nat) : Int :=
  min pref (est - (i : Int) * pref)

/-- The ordered list of chunk durations produced for one task. -/
def chunkDurations (pref est : Int) : List Int :=
  (List.range (numSessions pref est).toNat).map (sessionDuration pref est)

/-! ### Urgency and priority scoring (scheduler.py lines 181-203) -/

/-- days_until_due = (due_date - current_date).days, i.e. the floor of the
difference divided by one day; both instants are given in minutes. -/
def daysUntilDue (dueMin curMin : Int) : Int :=
  (dueMin - curMin) / 1440

/-- Urgency tier from SchedulingEngine._calculate_urgency. -/
def calculateUrgency (dueMin curMin : Int) : Int :=
  if daysUntilDue dueMin curMin ≤ 1 then 10
  else if daysUntilDue dueMin curMin ≤ 3 then 7
  else if daysUntilDue dueMin curMin ≤ 7 then 5
  else if daysUntilDue dueMin curMin ≤ 14 then 3
  else 1

/-- Lower-cased copy of a string (priority.lower()). -/
def lowerStr (s : String) : String :=
  String.mk (s.data.map Char.toLower)

/-- Priority weight from SchedulingEngine._get_priority_weight: a lookup in
a literal dict with default 5 for a missing key. -/
def getPriorityWeight (p : String) : Int :=
  if lowerStr p = "urgent" then 10
  else if lowerStr p = "high" then 7
  else if lowerStr p = "medium" then 5
  else if lowerStr p = "low" then 3
  else 5

/-- Coefficient of a session end variable in the objective
(scheduler.py line 144): urgency times priority weight. -/
def combinedWeight (dueMin curMin : Int) (p : String) : Int :=
  calculateUrgency dueMin curMin * getPriorityWeight p

/-! ### The CP-SAT constraint model (scheduler.py lines 47-147)

One decision chunk per (task, session index).  An assignment of the model
is a list of start offsets, one per chunk in order.  The predicate
cpModelOk states exactly the constraints the Python code adds to the
model, so that any solution the solver can return satisfies it. -/

/-- A task as consumed by SchedulingEngine.generate_schedule; dueOffset is
int((due_date - start_date).total_seconds() / 60). -/
structure CpTask where
  id : Nat
  dueOffset : Int
  estimatedMinutes : Int
  priority : String
  courseId : Option Nat
deriving DecidableEq

/-- One decision chunk of the model (scheduler.py lines 57-88). -/
structure CpChunk where
  taskId : Nat
  sessionIdx : Nat
  duration : Int
  dueOffset : Int
deriving DecidableEq

/-- The chunks created for one task, in session-index order. -/
def cpChunksOfTask (pref : Int) (t : CpTask) : List CpChunk :=
  (List.range (numSessions pref t.estimatedMinutes).toNat).map
    (fun i => ⟨t.id, i, sessionDuration pref t.estimatedMinutes i, t.dueOffset⟩)

/-- All chunks of a task list, concatenated in task order. -/
def cpChunks (pref : Int) (tasks : List CpTask) : List CpChunk :=
  tasks.flatMap (cpChunksOfTask pref)

/-- Upper bound of the start variable domain (scheduler.py lines 73-75):
min(time_horizon, max(0, due_date_minutes - session_duration)). -/
def maxStartBound (horizon : Int) (c : CpChunk) : Int :=
  min horizon (max 0 (c.dueOffset - c.duration))

/-- Domain constraints for one chunk with start value s: the NewIntVar
bounds of start and end together with end = start + duration
(scheduler.py lines 75-79). -/
def chunkDomOk (horizon : Int) (c : CpChunk) (s : Int) : Prop :=
  0 ≤ s ∧ s ≤ maxStartBound horizon c ∧ 0 ≤ s + c.duration ∧ s + c.duration ≤ horizon

instance (horizon : Int) (c : CpChunk) (s : Int) : Decidable (chunkDomOk horizon c s) := by
  unfold chunkDomOk; infer_instance

/-- The pairwise AddNoOverlap constraint (scheduler.py lines 90-111).
CP-SAT places no restriction on a zero-size interval inside a no-overlap
constraint, hence the two guards. -/
def noOverlapPair (p q : CpChunk × Int) : Prop :=
  p.1.duration = 0 ∨ q.1.duration = 0 ∨
    p.2 + p.1.duration ≤ q.2 ∨ q.2 + q.1.duration ≤ p.2

instance (p q : CpChunk × Int) : Decidable (noOverlapPair p q) := by
  unfold noOverlapPair; infer_instance

/-- Window containment for one chunk (scheduler.py lines 112-131): one
indicator per window, containment enforced under the indicator, and a
BoolOr over all indicators, which is only added when the window list is
not empty. -/
def chunkWindowOk (windows : List (Int × Int)) (c : CpChunk) (s : Int) : Prop :=
  windows = [] ∨ ∃ w ∈ windows, w.1 ≤ s ∧ s + c.duration ≤ w.2

instance (windows : List (Int × Int)) (c : CpChunk) (s : Int) :
    Decidable (chunkWindowOk windows c s) := by
  unfold chunkWindowOk; infer_instance

/-- Satisfaction of the whole constraint model by an assignment of start
offsets: every constraint the Python code adds to the CpModel. -/
def cpModelOk (horizon : Int) (windows : List (Int × Int))
    (chunks : List CpChunk) (starts : List Int) : Prop :=
  starts.length = chunks.length ∧
  (∀ p ∈ chunks.zip starts, chunkDomOk horizon p.1 p.2) ∧
  (chunks.zip starts).Pairwise noOverlapPair ∧
  (∀ p ∈ chunks.zip starts, chunkWindowOk windows p.1 p.2)

instance (horizon : Int) (windows : List (Int × Int))
    (chunks : List CpChunk) (starts : List Int) :
    Decidable (cpModelOk horizon windows chunks starts) := by
  unfold cpModelOk; infer_instance

/-- A scheduled session as extracted from a solver solution
(scheduler.py lines 156-173). -/
structure CpOut where
  taskId : Nat
  startTime : Int
  endTime : Int
  plannedMinutes : Int
deriving DecidableEq

/-- Solution extraction: each chunk with its start value becomes a session
with end = start + duration. -/
def cpExtract (chunks : List CpChunk) (starts : List Int) : List CpOut :=
  (chunks.zip starts).map (fun p => ⟨p.1.taskId, p.2, p.2 + p.1.duration, p.1.duration⟩)

/-! ### The greedy scheduling endpoint (server.py lines 639-749)

The endpoint is embedded as a pure function from an explicit database
value to a new database value plus the HTTP response body.  The time
origin is midnight of the first day of the run; the day with index k
covers minutes [k*1440, (k+1)*1440), and the rule-derived window on that
day is [k*1440 + startMin, k*1440 + endMin). -/

/-- A stored study session row (the dict inserted at server.py line 732,
without the uuid and created_at fields, which no stated property reads). -/
structure Session where
  userId : Nat
  taskId : Nat
  courseId : Option Nat
  startTime : Int
  endTime : Int
  plannedMinutes : Int
  actualMinutes : Int
  status : SessionStatus
deriving DecidableEq

/-- A stored availability rule row: day_of_week as 0 = monday .. 6 =
sunday, and the two HH:MM times of day converted to minutes. -/
structure AvailRule where
  userId : Nat
  dayOfWeek : Nat
  startMin : Int
  endMin : Int
deriving DecidableEq

/-- A stored task row with the fields generate_schedule reads; dueOffset
is the due instant in minutes from the time origin of the run. -/
structure DBTask where
  id : Nat
  userId : Nat
  courseId : Option Nat
  status : TaskStatus
  priority : String
  dueOffset : Int
  estimatedMinutes : Int
  completedMinutes : Int
deriving DecidableEq

/-- The collections generate_schedule touches. -/
structure DB where
  tasks : List DBTask
  rules : List AvailRule
  sessions : List Session
deriving DecidableEq

/-- The user record fields generate_schedule reads. -/
structure UserRec where
  id : Nat
  preferredSessionLength : Int
  breakPreference : Int
deriving DecidableEq

/-- Mutable state threaded through the greedy loops: the task queue, the
study_sessions collection, and the scheduled_sessions response list. -/
structure GreedyState where
  queue : List DBTask
  dbSessions : List Session
  out : List Session
deriving DecidableEq

/-- Remaining effort of a task (server.py line 709). -/
def taskRemaining (t : DBTask) : Int :=
  t.estimatedMinutes - t.completedMinutes

/-- The session dict built at server.py lines 718-730. -/
def mkPlanned (u : Nat) (t : DBTask) (start dur : Int) : Session :=
  ⟨u, t.id, t.courseId, start, start + dur, dur, 0, SessionStatus.planned⟩

/-- The inner while loop over one window (server.py lines 707-742), with
cursor current_time and remainder available_minutes, written with a fuel
argument so that the recursion is structural.  The loop body either pops a
task whose remaining effort is not positive and retries, or schedules one
chunk of size min(session_length, task_remaining, available_minutes) at
the cursor, appends it to the sessions collection and the response list,
adds its duration to completed_minutes of the head task, pops the task
when it is now complete, and advances cursor and remainder by the chunk
duration plus the break length. -/
def windowLoop (sl bl : Int) (u : Nat) :
    Nat → Int → Int → GreedyState → GreedyState
  | 0, _, _, st => st
  | fuel + 1, cur, avail, st =>
    if sl ≤ avail then
      match st.queue with
      | [] => st
      | t :: rest =>
        if taskRemaining t ≤ 0 then
          windowLoop sl bl u fuel cur avail ⟨rest, st.dbSessions, st.out⟩
        else
          let dur := min sl (min (taskRemaining t) avail)
          let s := mkPlanned u t cur dur
          let t2 : DBTask := { t with completedMinutes := t.completedMinutes + dur }
          let queue2 := if t2.estimatedMinutes ≤ t2.completedMinutes then rest else t2 :: rest
          windowLoop sl bl u fuel (cur + dur + bl) (avail - (dur + bl))
            ⟨queue2, st.dbSessions ++ [s], st.out ++ [s]⟩
    else st

/-- Processing of one rule of the current day (server.py lines 695-704):
the window is the current date with the rule times of day, the remainder
is its length in minutes, and the cursor starts at the window start.  The
fuel bounds the iteration count of the inner loop: each iteration either
pops a task or decreases the remainder. -/
def processRule (sl bl : Int) (u : Nat) (dayBase : Int) (r : AvailRule)
    (st : GreedyState) : GreedyState :=
  let wStart := dayBase + r.startMin
  let wEnd := dayBase + r.endMin
  windowLoop sl bl u (st.queue.length + (wEnd - wStart).toNat + 1) wStart (wEnd - wStart) st

/-- The rules of the day with the given weekday, in stored order
(server.py line 689). -/
def dayRules (rules : List AvailRule) (dow : Nat) : List AvailRule :=
  rules.filter (fun r => r.dayOfWeek == dow)

/-- The for loop over the rules of one day (server.py lines 691-693),
stopping as soon as the task queue is empty. -/
def processRules (sl bl : Int) (u : Nat) (dayBase : Int) :
    List AvailRule → GreedyState → GreedyState
  | [], st => st
  | r :: rs, st =>
    if st.queue = [] then st
    else processRules sl bl u dayBase rs (processRule sl bl u dayBase r st)

/-- The day-by-day while loop (server.py lines 687-744): numDays is the
number of day iterations of the horizon, k the index of the current day,
and startDow the weekday of day 0. -/
def dayLoop (sl bl : Int) (u : Nat) (rules : List AvailRule) (startDow : Nat) :
    Nat → Nat → GreedyState → GreedyState
  | 0, _, st => st
  | days + 1, k, st =>
    if st.queue = [] then st
    else
      let dow := (startDow + k) % 7
      let st2 := processRules sl bl u ((k : Int) * 1440) (dayRules rules dow) st
      dayLoop sl bl u rules startDow days (k + 1) st2

/-- The sort key order of task_priority_key (server.py lines 672-676):
priority rank with default 2 for an unknown string. -/
def priorityOrder (p : String) : Nat :=
  if p = "urgent" then 0
  else if p = "high" then 1
  else if p = "medium" then 2
  else if p = "low" then 3
  else 2

/-- Strict order on the sort keys (priority rank, due date). -/
def taskKeyLt (t1 t2 : DBTask) : Prop :=
  priorityOrder t1.priority < priorityOrder t2.priority ∨
    (priorityOrder t1.priority = priorityOrder t2.priority ∧ t1.dueOffset < t2.dueOffset)

instance (t1 t2 : DBTask) : Decidable (taskKeyLt t1 t2) := by
  unfold taskKeyLt; infer_instance

/-- Stable insertion of a task before every stored task it strictly
precedes: an element equal in key keeps its earlier position. -/
def insertTask (t : DBTask) : List DBTask → List DBTask
  | [] => [t]
  | x :: xs => if taskKeyLt x t then x :: insertTask t xs else t :: x :: xs

/-- Stable sort by (priority rank, due date), the order of
sorted(tasks, key=task_priority_key) at server.py line 678. -/
def sortTasks : List DBTask → List DBTask
  | [] => []
  | t :: ts => insertTask t (sortTasks ts)

/-- A task the run schedules: owned by the user and pending or in
progress (the query at server.py lines 647-650). -/
def schedulable (u : Nat) (t : DBTask) : Bool :=
  t.userId == u && (t.status == TaskStatus.pending || t.status == TaskStatus.inProgress)

/-- The response message, modelled as the three message values the
endpoint can produce: the no-pending-tasks reason, the
set-availability-first reason, and the created-count success message. -/
inductive ScheduleMessage where
  | noPendingTasks
  | setAvailabilityFirst
  | created (n : Nat)
deriving DecidableEq

/-- The JSON body of a successful response. -/
structure ScheduleResult where
  sessions : List Session
  message : ScheduleMessage
deriving DecidableEq

/-- The one error the endpoint can raise before its early returns: the
404 for a missing user record (server.py lines 643-644). -/
inductive ApiError where
  | userNotFound
deriving DecidableEq

/-- Deletion of the still planned sessions of the user
(server.py lines 661-665). -/
def deletePlanned (u : Nat) (sessions : List Session) : List Session :=
  sessions.filter (fun s => !(s.userId == u && s.status == SessionStatus.planned))

/-- The whole endpoint (server.py lines 639-749) as a function of the
user lookup result, the horizon shape, and the database value.  It
returns the new database value and the response body, or the 404 error. -/
def generateSchedule (user? : Option UserRec) (numDays startDow : Nat) (db : DB) :
    Except ApiError (DB × ScheduleResult) :=
  match user? with
  | none => Except.error ApiError.userNotFound
  | some user =>
    let u := user.id
    let tasks := db.tasks.filter (schedulable u)
    if tasks = [] then Except.ok (db, ⟨[], ScheduleMessage.noPendingTasks⟩)
    else
      let rules := db.rules.filter (fun r => r.userId == u)
      if rules = [] then Except.ok (db, ⟨[], ScheduleMessage.setAvailabilityFirst⟩)
      else
        let kept := deletePlanned u db.sessions
        let st0 : GreedyState := ⟨sortTasks tasks, kept, []⟩
        let stF := dayLoop user.preferredSessionLength user.breakPreference u rules
          startDow numDays 0 st0
        Except.ok (⟨db.tasks, db.rules, stF.dbSessions⟩, ⟨stF.out, ScheduleMessage.created stF.out.length⟩)

/-! ### Predicates used by the stated properties -/

/-- Two extracted optimal-path sessions occupy disjoint intervals. -/
def outDisj (o1 o2 : CpOut) : Prop :=
  o1.endTime ≤ o2.startTime ∨ o2.endTime ≤ o1.startTime

instance (o1 o2 : CpOut) : Decidable (outDisj o1 o2) := by
  unfold outDisj; infer_instance

/-- Two stored sessions occupy disjoint intervals. -/
def sessDisj (s1 s2 : Session) : Prop :=
  s1.endTime ≤ s2.startTime ∨ s2.endTime ≤ s1.startTime

instance (s1 s2 : Session) : Decidable (sessDisj s1 s2) := by
  unfold sessDisj; infer_instance

/-- A session lies fully inside the interval [lo, hi] and is proper. -/
def inWindow (lo hi : Int) (s : Session) : Prop :=
  lo ≤ s.startTime ∧ s.startTime < s.endTime ∧ s.endTime ≤ hi

instance (lo hi : Int) (s : Session) : Decidable (inWindow lo hi s) := by
  unfold inWindow; infer_instance

/-- Two rules on the same weekday describe disjoint time-of-day windows;
this is what the resolver contract guarantees about stored rules. -/
def ruleCompat (r1 r2 : AvailRule) : Prop :=
  r1.dayOfWeek = r2.dayOfWeek → r1.endMin ≤ r2.startMin ∨ r2.endMin ≤ r1.startMin

instance (r1 r2 : AvailRule) : Decidable (ruleCompat r1 r2) := by
  unfold ruleCompat; infer_instance

/-- The rule times of day denote a window inside one calendar day: both
HH:MM fields parse to minutes in [0, 1440). -/
def ruleBounds (r : AvailRule) : Prop :=
  0 ≤ r.startMin ∧ r.endMin ≤ 1440

instance (r : AvailRule) : Decidable (ruleBounds r) := by
  unfold ruleBounds; infer_instance

/-- The session lies inside the window derived from rule r placed on the
day with index j (server.py lines 699-700). -/
def inRuleWindow (j : Nat) (r : AvailRule) (s : Session) : Prop :=
  inWindow ((j : Int) * 1440 + r.startMin) ((j : Int) * 1440 + r.endMin) s

instance (j : Nat) (r : AvailRule) (s : Session) : Decidable (inRuleWindow j r s) := by
  unfold inRuleWindow; infer_instance

/-! ## Theorems -/

/-- For a task with positive remaining effort, the chunk count is the
ceiling of effort over the preferred length: it is at least one, its
multiple of the preferred length covers the effort, and one chunk fewer
would not. -/
lemma numSessions_pos_spec (pref est : Int) (hp : 1 ≤ pref) (he : 1 ≤ est) :
    1 ≤ numSessions pref est ∧
    est ≤ numSessions pref est * pref ∧
    (numSessions pref est - 1) * pref < est := by
  have h0 : (0 : Int) < pref := by omega
  have hq := Int.ediv_add_emod (est + pref - 1) pref
  have hr0 : 0 ≤ (est + pref - 1) % pref := Int.emod_nonneg _ (by omega)
  have hr1 : (est + pref - 1) % pref < pref := Int.emod_lt_of_pos _ h0
  have hple : est ≤ pref * ((est + pref - 1) / pref) := by linarith
  have hq1 : 1 ≤ (est + pref - 1) / pref := by
    by_contra hcon
    push_neg at hcon
    have hle0 : pref * ((est + pref - 1) / pref) ≤ pref * 0 :=
      mul_le_mul_of_nonneg_left (by omega) (by omega)
    simp only [mul_zero] at hle0
    linarith
  have hmax : numSessions pref est = (est + pref - 1) / pref := by
    unfold numSessions
    exact max_eq_right hq1
  rw [hmax]
  refine ⟨hq1, by linarith [mul_comm pref ((est + pref - 1) / pref)], ?_⟩
  have : ((est + pref - 1) / pref - 1) * pref = pref * ((est + pref - 1) / pref) - pref := by
    ring
  linarith

/-- For positive remaining effort the chunk list is a run of
preferred-length chunks followed by one final remainder chunk. -/
lemma chunkDurations_pos (pref est : Int) (hp : 1 ≤ pref) (he : 1 ≤ est) :
    ∃ m : Nat, chunkDurations pref est =
        List.replicate m pref ++ [est - (m : Int) * pref] ∧
      est ≤ ((m : Int) + 1) * pref ∧ (m : Int) * pref < est := by
  obtain ⟨h1, h2, h3⟩ := numSessions_pos_spec pref est hp he
  refine ⟨(numSessions pref est).toNat - 1, ?_, ?_, ?_⟩
  · have hn : (numSessions pref est).toNat =
        ((numSessions pref est).toNat - 1) + 1 := by omega
    have hcast : (((numSessions pref est).toNat - 1 : Nat) : Int) =
        numSessions pref est - 1 := by omega
    unfold chunkDurations
    rw [hn, List.range_succ, List.map_append, List.map_singleton]
    congr 1
    · refine List.eq_replicate_iff.2 ⟨by simp, ?_⟩
      intro b hb
      simp only [List.mem_map, List.mem_range] at hb
      obtain ⟨i, hi, rfl⟩ := hb
      unfold sessionDuration
      have hstep : ((i : Int) + 1) * pref ≤ (numSessions pref est - 1) * pref := by
        apply mul_le_mul_of_nonneg_right ?_ (by omega)
        omega
      have hmono : pref ≤ est - (i : Int) * pref := by nlinarith
      exact min_eq_left hmono
    · unfold sessionDuration
      simp only [Nat.add_sub_cancel]
      rw [hcast]
      have hle : est - (numSessions pref est - 1) * pref ≤ pref := by nlinarith
      rw [min_eq_right hle]
  · have : (((numSessions pref est).toNat - 1 : Nat) : Int) + 1 = numSessions pref est := by
      omega
    rw [this]
    linarith [mul_comm (numSessions pref est) pref]
  · have : (((numSessions pref est).toNat - 1 : Nat) : Int) = numSessions pref est - 1 := by
      omega
    rw [this]
    exact h3

/-- For remaining effort at most zero the code still produces one chunk,
of duration min(preferred, remaining). -/
lemma chunkDurations_nonpos (pref est : Int) (hp : 1 ≤ pref) (he : est ≤ 0) :
    chunkDurations pref est = [min pref est] := by
  have h0 : (0 : Int) < pref := by omega
  have hlt : (est + pref - 1) / pref < 1 := by
    rw [Int.ediv_lt_iff_lt_mul h0]
    omega
  have hmax : numSessions pref est = 1 := by
    unfold numSessions
    omega
  unfold chunkDurations
  rw [hmax]
  have hr1 : List.range (1 : Int).toNat = [0] := rfl
  rw [hr1]
  simp [sessionDuration]

/-- C4, corrected.  For positive preferred length and positive remaining
effort, the chunk sequence is m preferred-length chunks followed by one
final chunk of length in [1, preferred]; the count is the ceiling of
remaining over preferred; an exact multiple makes the final chunk the full
preferred length; no chunk has length zero; and the durations sum to the
remaining effort.  For remaining effort at most zero the code does not
produce an empty sequence: it emits exactly one chunk of duration
min(preferred, remaining), which is not positive. -/
theorem decomposition_postcondition (pref est : Int) (hp : 1 ≤ pref) :
    (1 ≤ est → ∃ m : Nat, ∃ last : Int,
      chunkDurations pref est = List.replicate m pref ++ [last] ∧
      (chunkDurations pref est).length = m + 1 ∧
      est ≤ ((m : Int) + 1) * pref ∧ (m : Int) * pref < est ∧
      1 ≤ last ∧ last ≤ pref ∧
      (pref ∣ est → last = pref) ∧
      (∀ d ∈ chunkDurations pref est, 0 < d) ∧
      (chunkDurations pref est).sum = est) ∧
    (est ≤ 0 → chunkDurations pref est = [min pref est]) := by
  constructor
  · intro he
    obtain ⟨m, hlist, hub, hlb⟩ := chunkDurations_pos pref est hp he
    refine ⟨m, est - (m : Int) * pref, hlist, ?_, hub, hlb, by linarith, by linarith, ?_, ?_, ?_⟩
    · rw [hlist]
      simp
    · intro hdvd
      have hdl : pref ∣ est - (m : Int) * pref :=
        dvd_sub hdvd (dvd_mul_left pref (m : Int))
      have hlow : pref ≤ est - (m : Int) * pref :=
        Int.le_of_dvd (by linarith) hdl
      linarith
    · intro d hd
      rw [hlist] at hd
      rcases List.mem_append.1 hd with hd1 | hd2
      · have := List.eq_of_mem_replicate hd1
        omega
      · simp only [List.mem_singleton] at hd2
        omega
    · rw [hlist, List.sum_append, List.sum_replicate, List.sum_cons, List.sum_nil,
        nsmul_eq_mul]
      ring
  · exact chunkDurations_nonpos pref est hp

/-- C4, counterexample to the claim as stated.  With preferred length 50
and remaining effort 0 the claim demands an empty chunk sequence, but the
code produces one chunk of length zero. -/
theorem decomposition_zero_counterexample :
    chunkDurations 50 0 = [0] ∧ chunkDurations 50 0 ≠ [] := by
  decide

/-- Witness for the amended decomposition theorem at preferred length 50
and remaining effort 120. -/
theorem decomposition_postcondition_witness :
    (1 : Int) ≤ 50 ∧ (1 : Int) ≤ 120 ∧ (chunkDurations 50 120).sum = 120 :=
  ⟨by decide, by decide, by
    obtain ⟨m, last, hlist, hlen, hub, hlb, hl1, hl2, hdvd, hpos, hsum⟩ :=
      (decomposition_postcondition 50 120 (by decide)).1 (by decide)
    exact hsum⟩

/-- C6, confirmed.  Days until due is the floor of the difference over one
day and is negative for an overdue task; the urgency tier follows the
stated table with every overdue task in the topmost tier; the priority
weights are urgent 10, high 7, medium 5 (also the default for an unknown
string), low 3; the objective coefficient is the product of urgency tier
and priority weight; and a task due in exactly one day with priority
urgent has combined weight 100. -/
theorem urgency_priority_scoring (due cur : Int) (p : String) :
    (due < cur → daysUntilDue due cur < 0) ∧
    (daysUntilDue due cur ≤ 1 → calculateUrgency due cur = 10) ∧
    (1 < daysUntilDue due cur → daysUntilDue due cur ≤ 3 → calculateUrgency due cur = 7) ∧
    (3 < daysUntilDue due cur → daysUntilDue due cur ≤ 7 → calculateUrgency due cur = 5) ∧
    (7 < daysUntilDue due cur → daysUntilDue due cur ≤ 14 → calculateUrgency due cur = 3) ∧
    (14 < daysUntilDue due cur → calculateUrgency due cur = 1) ∧
    getPriorityWeight "urgent" = 10 ∧
    getPriorityWeight "high" = 7 ∧
    getPriorityWeight "medium" = 5 ∧
    getPriorityWeight "low" = 3 ∧
    getPriorityWeight "unknown" = 5 ∧
    combinedWeight due cur p = calculateUrgency due cur * getPriorityWeight p ∧
    combinedWeight (cur + 1440) cur "urgent" = 100 := by
  have hd1 : daysUntilDue (cur + 1440) cur = 1 := by
    unfold daysUntilDue
    omega
  refine ⟨?_, ?_, ?_, ?_, ?_, ?_, by decide, by decide, by decide, by decide, by decide,
    rfl, ?_⟩
  · intro h
    unfold daysUntilDue
    omega
  · intro h
    unfold calculateUrgency
    rw [if_pos h]
  · intro h1 h2
    unfold calculateUrgency
    rw [if_neg (by omega), if_pos h2]
  · intro h1 h2
    unfold calculateUrgency
    rw [if_neg (by omega), if_neg (by omega), if_pos h2]
  · intro h1 h2
    unfold calculateUrgency
    rw [if_neg (by omega), if_neg (by omega), if_neg (by omega), if_pos h2]
  · intro h1
    unfold calculateUrgency
    rw [if_neg (by omega), if_neg (by omega), if_neg (by omega), if_neg (by omega)]
  · unfold combinedWeight calculateUrgency
    rw [hd1]
    rw [if_pos (by norm_num : (1 : Int) ≤ 1)]
    decide

/-- Witness for the scoring theorem: a task one day before its due
instant with priority urgent scores tier 10 and combined weight 100. -/
theorem urgency_priority_scoring_witness :
    daysUntilDue 1440 0 ≤ 1 ∧ calculateUrgency 1440 0 = 10 :=
  ⟨by decide, (urgency_priority_scoring 1440 0 "urgent").2.1 (by decide)⟩

/-- Every model solution puts every extracted session inside one of the
availability windows, provided at least one window exists. -/
lemma cp_containment (horizon : Int) (windows : List (Int × Int))
    (chunks : List CpChunk) (starts : List Int)
    (h : cpModelOk horizon windows chunks starts) (hw : windows ≠ []) :
    ∀ o ∈ cpExtract chunks starts, ∃ w ∈ windows, w.1 ≤ o.startTime ∧ o.endTime ≤ w.2 := by
  intro o ho
  obtain ⟨-, -, -, h4⟩ := h
  unfold cpExtract at ho
  simp only [List.mem_map] at ho
  obtain ⟨p, hp, rfl⟩ := ho
  have hcw := h4 p hp
  unfold chunkWindowOk at hcw
  rcases hcw with h | h
  · exact absurd h hw
  · obtain ⟨w, hwmem, h1, h2⟩ := h
    exact ⟨w, hwmem, h1, h2⟩

/-- Every chunk the decomposition produces for tasks with positive
estimated effort has positive duration. -/
lemma cpChunks_duration_pos (pref : Int) (tasks : List CpTask) (hp : 1 ≤ pref)
    (hest : ∀ t ∈ tasks, 1 ≤ t.estimatedMinutes) :
    ∀ c ∈ cpChunks pref tasks, 0 < c.duration := by
  intro c hc
  unfold cpChunks at hc
  simp only [List.mem_flatMap] at hc
  obtain ⟨t, ht, hc⟩ := hc
  unfold cpChunksOfTask at hc
  simp only [List.mem_map, List.mem_range] at hc
  obtain ⟨i, hi, rfl⟩ := hc
  obtain ⟨h1, h2, h3⟩ := numSessions_pos_spec pref t.estimatedMinutes hp (hest t ht)
  unfold sessionDuration
  have hi2 : (i : Int) ≤ numSessions pref t.estimatedMinutes - 1 := by omega
  have hmul : (i : Int) * pref ≤ (numSessions pref t.estimatedMinutes - 1) * pref :=
    mul_le_mul_of_nonneg_right hi2 (by omega)
  rw [lt_min_iff]
  constructor
  · omega
  · linarith

/-- Every model solution over chunks of positive duration yields pairwise
disjoint extracted sessions. -/
lemma cp_no_overlap (horizon : Int) (windows : List (Int × Int))
    (chunks : List CpChunk) (starts : List Int)
    (h : cpModelOk horizon windows chunks starts)
    (hdur : ∀ c ∈ chunks, 0 < c.duration) :
    (cpExtract chunks starts).Pairwise outDisj := by
  obtain ⟨-, -, h3, -⟩ := h
  unfold cpExtract
  rw [List.pairwise_map]
  refine h3.imp_of_mem ?_
  intro p q hp hq hR
  have hpd : 0 < p.1.duration := hdur p.1 (List.of_mem_zip hp).1
  have hqd : 0 < q.1.duration := hdur q.1 (List.of_mem_zip hq).1
  unfold noOverlapPair at hR
  unfold outDisj
  rcases hR with h | h | h | h
  · omega
  · omega
  · exact Or.inl h
  · exact Or.inr h

/-- C1, the failing inputs evaluated on the code.  Optimal path: one task
with due offset 30 minutes and one 50-minute chunk, inside a 240-minute
horizon with a single window covering it.  The constraint model accepts
the assignment that starts the chunk at offset 0 (so the instance is
feasible, not reported infeasible), the extracted session ends at offset
50, after the due offset 30, and the start domain is pinned to 0 by the
clamped bound max(0, due - duration), so every solution ends late.
Greedy path: a task whose due offset 0 lies before the only window; the
endpoint schedules its chunk at [600, 650), entirely after the due
instant, instead of leaving the task unscheduled. -/
theorem deadline_not_enforced :
    cpModelOk 240 [(0, 240)] (cpChunks 50 [⟨1, 30, 50, "urgent", none⟩]) [0] ∧
    cpExtract (cpChunks 50 [⟨1, 30, 50, "urgent", none⟩]) [0] = [⟨1, 0, 50, 50⟩] ∧
    maxStartBound 240 ⟨1, 0, 50, 30⟩ = 0 ∧
    (30 : Int) < 50 ∧
    (generateSchedule (some ⟨1, 50, 10⟩) 1 0
        ⟨[⟨1, 1, none, TaskStatus.pending, "urgent", 0, 50, 0⟩],
          [⟨1, 0, 600, 720⟩], []⟩).toOption.map
      (fun p => p.2.sessions.map (fun s => (s.startTime, s.endTime))) =
      some [(600, 650)] ∧
    (0 : Int) < 600 := by
  decide

/-- C2, counterexample to the claim as stated.  Two identical availability
rules for the same weekday make the greedy endpoint walk the same window
twice: the run emits the sessions [600, 650), [660, 710) and [600, 620),
and the third overlaps the first. -/
theorem no_overlap_counterexample :
    (generateSchedule (some ⟨1, 50, 10⟩) 1 0
        ⟨[⟨1, 1, none, TaskStatus.pending, "urgent", 0, 120, 0⟩],
          [⟨1, 0, 600, 720⟩, ⟨1, 0, 600, 720⟩], []⟩).toOption.map
      (fun p => p.2.sessions) =
      some [⟨1, 1, none, 600, 650, 50, 0, SessionStatus.planned⟩,
        ⟨1, 1, none, 660, 710, 50, 0, SessionStatus.planned⟩,
        ⟨1, 1, none, 600, 620, 20, 0, SessionStatus.planned⟩] ∧
    ¬ sessDisj ⟨1, 1, none, 600, 650, 50, 0, SessionStatus.planned⟩
        ⟨1, 1, none, 600, 620, 20, 0, SessionStatus.planned⟩ := by
  constructor
  · decide
  · unfold sessDisj
    decide

/-- Frame of one window loop: the run appends the same block of new
sessions to the sessions collection and to the response list, and every
new session belongs to the user, has status planned, has end equal to
start plus its planned minutes, and, when the session length preference is
positive, a positive planned duration of at most that length. -/
lemma windowLoop_frame (sl bl : Int) (u : Nat) (fuel : Nat) :
    ∀ (cur avail : Int) (st : GreedyState),
    ∃ ext : List Session,
      (windowLoop sl bl u fuel cur avail st).dbSessions = st.dbSessions ++ ext ∧
      (windowLoop sl bl u fuel cur avail st).out = st.out ++ ext ∧
      ∀ s ∈ ext, s.userId = u ∧ s.status = SessionStatus.planned ∧
        s.endTime = s.startTime + s.plannedMinutes ∧
        (1 ≤ sl → 0 < s.plannedMinutes ∧ s.plannedMinutes ≤ sl) := by
  induction fuel with
  | zero =>
    intro cur avail st
    exact ⟨[], by simp [windowLoop], by simp [windowLoop], by simp⟩
  | succ fuel ih =>
    intro cur avail st
    obtain ⟨queue, dbS, out⟩ := st
    by_cases hav : sl ≤ avail
    · cases queue with
      | nil =>
        exact ⟨[], by simp [windowLoop, hav], by simp [windowLoop, hav], by simp⟩
      | cons t rest =>
        by_cases hrem : taskRemaining t ≤ 0
        · obtain ⟨ext, h1, h2, h3⟩ := ih cur avail ⟨rest, dbS, out⟩
          refine ⟨ext, ?_, ?_, h3⟩
          · simpa [windowLoop, hav, hrem] using h1
          · simpa [windowLoop, hav, hrem] using h2
        · obtain ⟨ext, h1, h2, h3⟩ :=
            ih (cur + min sl (min (taskRemaining t) avail) + bl)
              (avail - (min sl (min (taskRemaining t) avail) + bl))
              ⟨if t.estimatedMinutes ≤ t.completedMinutes + min sl (min (taskRemaining t) avail)
                  then rest
                  else { t with completedMinutes :=
                    t.completedMinutes + min sl (min (taskRemaining t) avail) } :: rest,
                dbS ++ [mkPlanned u t cur (min sl (min (taskRemaining t) avail))],
                out ++ [mkPlanned u t cur (min sl (min (taskRemaining t) avail))]⟩
          refine ⟨mkPlanned u t cur (min sl (min (taskRemaining t) avail)) :: ext, ?_, ?_, ?_⟩
          · rw [show (windowLoop sl bl u (fuel + 1) cur avail ⟨t :: rest, dbS, out⟩) =
                windowLoop sl bl u fuel
                  (cur + min sl (min (taskRemaining t) avail) + bl)
                  (avail - (min sl (min (taskRemaining t) avail) + bl))
                  ⟨if t.estimatedMinutes ≤ t.completedMinutes + min sl (min (taskRemaining t) avail)
                      then rest
                      else { t with completedMinutes :=
                        t.completedMinutes + min sl (min (taskRemaining t) avail) } :: rest,
                    dbS ++ [mkPlanned u t cur (min sl (min (taskRemaining t) avail))],
                    out ++ [mkPlanned u t cur (min sl (min (taskRemaining t) avail))]⟩
              from by simp [windowLoop, hav, hrem]]
            rw [h1]
            simp
          · rw [show (windowLoop sl bl u (fuel + 1) cur avail ⟨t :: rest, dbS, out⟩) =
                windowLoop sl bl u fuel
                  (cur + min sl (min (taskRemaining t) avail) + bl)
                  (avail - (min sl (min (taskRemaining t) avail) + bl))
                  ⟨if t.estimatedMinutes ≤ t.completedMinutes + min sl (min (taskRemaining t) avail)
                      then rest
                      else { t with completedMinutes :=
                        t.completedMinutes + min sl (min (taskRemaining t) avail) } :: rest,
                    dbS ++ [mkPlanned u t cur (min sl (min (taskRemaining t) avail))],
                    out ++ [mkPlanned u t cur (min sl (min (taskRemaining t) avail))]⟩
              from by simp [windowLoop, hav, hrem]]
            rw [h2]
            simp
          · intro s hs
            rcases List.mem_cons.1 hs with hs | hs
            · subst hs
              refine ⟨rfl, rfl, rfl, ?_⟩
              intro hsl
              constructor
              · simp only [mkPlanned]
                rw [lt_min_iff, lt_min_iff]
                omega
              · simp only [mkPlanned]
                exact min_le_left _ _
            · exact h3 s hs
    · exact ⟨[], by simp [windowLoop, hav], by simp [windowLoop, hav], by simp⟩

/-- Unfolding equation of the scheduling step of the window loop: with
enough room and a head task with positive remaining effort, one chunk of
size min(session length, task remaining, window remaining) is emitted at
the cursor and the loop continues on the advanced state. -/
lemma windowLoop_step (sl bl : Int) (u : Nat) (fuel : Nat) (cur avail : Int)
    (t : DBTask) (rest : List DBTask) (dbS outS : List Session)
    (hav : sl ≤ avail) (hrem : ¬ taskRemaining t ≤ 0) :
    windowLoop sl bl u (fuel + 1) cur avail ⟨t :: rest, dbS, outS⟩ =
      windowLoop sl bl u fuel (cur + min sl (min (taskRemaining t) avail) + bl)
        (avail - (min sl (min (taskRemaining t) avail) + bl))
        ⟨if t.estimatedMinutes ≤ t.completedMinutes + min sl (min (taskRemaining t) avail)
            then rest
            else { t with completedMinutes :=
              t.completedMinutes + min sl (min (taskRemaining t) avail) } :: rest,
          dbS ++ [mkPlanned u t cur (min sl (min (taskRemaining t) avail))],
          outS ++ [mkPlanned u t cur (min sl (min (taskRemaining t) avail))]⟩ := by
  simp [windowLoop, hav, hrem]

/-- Unfolding equation of the dequeue step of the window loop: a head task
without positive remaining effort is popped before any chunk is sized. -/
lemma windowLoop_skip (sl bl : Int) (u : Nat) (fuel : Nat) (cur avail : Int)
    (t : DBTask) (rest : List DBTask) (dbS outS : List Session)
    (hav : sl ≤ avail) (hrem : taskRemaining t ≤ 0) :
    windowLoop sl bl u (fuel + 1) cur avail ⟨t :: rest, dbS, outS⟩ =
      windowLoop sl bl u fuel cur avail ⟨rest, dbS, outS⟩ := by
  simp [windowLoop, hav, hrem]

/-- Geometry of one window loop: under a positive session length and a
nonnegative break length, the new sessions all lie inside
[cursor, cursor + remainder], and they are emitted in chronological order
with disjoint intervals. -/
lemma windowLoop_geom (sl bl : Int) (u : Nat) (hsl : 1 ≤ sl) (hbl : 0 ≤ bl) (fuel : Nat) :
    ∀ (cur avail : Int) (st : GreedyState),
    ∃ ext : List Session,
      (windowLoop sl bl u fuel cur avail st).dbSessions = st.dbSessions ++ ext ∧
      (windowLoop sl bl u fuel cur avail st).out = st.out ++ ext ∧
      (∀ s ∈ ext, cur ≤ s.startTime ∧ s.startTime < s.endTime ∧ s.endTime ≤ cur + avail) ∧
      ext.Pairwise (fun s1 s2 => s1.endTime ≤ s2.startTime) := by
  induction fuel with
  | zero =>
    intro cur avail st
    exact ⟨[], by simp [windowLoop], by simp [windowLoop], by simp, by simp⟩
  | succ fuel ih =>
    intro cur avail st
    obtain ⟨queue, dbS, outS⟩ := st
    by_cases hav : sl ≤ avail
    · cases queue with
      | nil =>
        exact ⟨[], by simp [windowLoop, hav], by simp [windowLoop, hav], by simp, by simp⟩
      | cons t rest =>
        by_cases hrem : taskRemaining t ≤ 0
        · obtain ⟨ext, h1, h2, h3, h4⟩ := ih cur avail ⟨rest, dbS, outS⟩
          rw [windowLoop_skip sl bl u fuel cur avail t rest dbS outS hav hrem]
          exact ⟨ext, h1, h2, h3, h4⟩
        · have hd1 : 1 ≤ min sl (min (taskRemaining t) avail) := by
            rw [le_min_iff, le_min_iff]
            omega
          have hd2 : min sl (min (taskRemaining t) avail) ≤ avail :=
            le_trans (min_le_right _ _) (min_le_right _ _)
          obtain ⟨ext, h1, h2, h3, h4⟩ :=
            ih (cur + min sl (min (taskRemaining t) avail) + bl)
              (avail - (min sl (min (taskRemaining t) avail) + bl))
              ⟨if t.estimatedMinutes ≤ t.completedMinutes + min sl (min (taskRemaining t) avail)
                  then rest
                  else { t with completedMinutes :=
                    t.completedMinutes + min sl (min (taskRemaining t) avail) } :: rest,
                dbS ++ [mkPlanned u t cur (min sl (min (taskRemaining t) avail))],
                outS ++ [mkPlanned u t cur (min sl (min (taskRemaining t) avail))]⟩
          rw [windowLoop_step sl bl u fuel cur avail t rest dbS outS hav hrem]
          refine ⟨mkPlanned u t cur (min sl (min (taskRemaining t) avail)) :: ext, ?_, ?_, ?_, ?_⟩
          · rw [h1]
            simp
          · rw [h2]
            simp
          · intro s hs
            rcases List.mem_cons.1 hs with hs | hs
            · subst hs
              simp only [mkPlanned]
              refine ⟨le_refl _, by omega, by omega⟩
            · obtain ⟨hb1, hb2, hb3⟩ := h3 s hs
              refine ⟨by omega, hb2, by omega⟩
          · rw [List.pairwise_cons]
            refine ⟨?_, h4⟩
            intro s hs
            obtain ⟨hb1, hb2, hb3⟩ := h3 s hs
            simp only [mkPlanned]
            omega
    · exact ⟨[], by simp [windowLoop, hav], by simp [windowLoop, hav], by simp, by simp⟩

/-- Frame of one rule window: ownership and shape of the new sessions. -/
lemma processRule_frame (sl bl : Int) (u : Nat) (dayBase : Int) (r : AvailRule)
    (st : GreedyState) :
    ∃ ext : List Session,
      (processRule sl bl u dayBase r st).dbSessions = st.dbSessions ++ ext ∧
      (processRule sl bl u dayBase r st).out = st.out ++ ext ∧
      ∀ s ∈ ext, s.userId = u ∧ s.status = SessionStatus.planned ∧
        s.endTime = s.startTime + s.plannedMinutes ∧
        (1 ≤ sl → 0 < s.plannedMinutes ∧ s.plannedMinutes ≤ sl) := by
  unfold processRule
  exact windowLoop_frame sl bl u _ _ _ st

/-- Geometry of one rule window: the new sessions lie inside the window
derived from the rule and are chronologically ordered and disjoint. -/
lemma processRule_geom (sl bl : Int) (u : Nat) (hsl : 1 ≤ sl) (hbl : 0 ≤ bl)
    (dayBase : Int) (r : AvailRule) (st : GreedyState) :
    ∃ ext : List Session,
      (processRule sl bl u dayBase r st).dbSessions = st.dbSessions ++ ext ∧
      (processRule sl bl u dayBase r st).out = st.out ++ ext ∧
      (∀ s ∈ ext, inWindow (dayBase + r.startMin) (dayBase + r.endMin) s) ∧
      ext.Pairwise (fun s1 s2 => s1.endTime ≤ s2.startTime) := by
  unfold processRule
  obtain ⟨ext, h1, h2, h3, h4⟩ :=
    windowLoop_geom sl bl u hsl hbl _ (dayBase + r.startMin)
      (dayBase + r.endMin - (dayBase + r.startMin)) st
  refine ⟨ext, h1, h2, ?_, h4⟩
  intro s hs
  obtain ⟨hb1, hb2, hb3⟩ := h3 s hs
  exact ⟨hb1, hb2, by omega⟩

/-- Frame of the for loop over the rules of one day. -/
lemma processRules_frame (sl bl : Int) (u : Nat) (dayBase : Int) :
    ∀ (rs : List AvailRule) (st : GreedyState),
    ∃ ext : List Session,
      (processRules sl bl u dayBase rs st).dbSessions = st.dbSessions ++ ext ∧
      (processRules sl bl u dayBase rs st).out = st.out ++ ext ∧
      ∀ s ∈ ext, s.userId = u ∧ s.status = SessionStatus.planned ∧
        s.endTime = s.startTime + s.plannedMinutes ∧
        (1 ≤ sl → 0 < s.plannedMinutes ∧ s.plannedMinutes ≤ sl) := by
  intro rs
  induction rs with
  | nil =>
    intro st
    exact ⟨[], by simp [processRules], by simp [processRules], by simp⟩
  | cons r rs ih =>
    intro st
    by_cases hq : st.queue = []
    · exact ⟨[], by simp [processRules, hq], by simp [processRules, hq], by simp⟩
    · obtain ⟨ext1, h11, h12, h13⟩ := processRule_frame sl bl u dayBase r st
      obtain ⟨ext2, h21, h22, h23⟩ := ih (processRule sl bl u dayBase r st)
      refine ⟨ext1 ++ ext2, ?_, ?_, ?_⟩
      · simp [processRules, hq, h21, h11]
      · simp [processRules, hq, h22, h12]
      · intro s hs
        rcases List.mem_append.1 hs with hs | hs
        · exact h13 s hs
        · exact h23 s hs

/-- Geometry of the for loop over the rules of one day: every new session
lies inside the window of one of the processed rules, and when those
windows are pairwise disjoint the new sessions are pairwise disjoint. -/
lemma processRules_geom (sl bl : Int) (u : Nat) (hsl : 1 ≤ sl) (hbl : 0 ≤ bl)
    (dayBase : Int) :
    ∀ (rs : List AvailRule) (st : GreedyState),
    rs.Pairwise (fun r1 r2 => r1.endMin ≤ r2.startMin ∨ r2.endMin ≤ r1.startMin) →
    ∃ ext : List Session,
      (processRules sl bl u dayBase rs st).dbSessions = st.dbSessions ++ ext ∧
      (processRules sl bl u dayBase rs st).out = st.out ++ ext ∧
      (∀ s ∈ ext, ∃ r ∈ rs, inWindow (dayBase + r.startMin) (dayBase + r.endMin) s) ∧
      ext.Pairwise sessDisj := by
  intro rs
  induction rs with
  | nil =>
    intro st hpw
    exact ⟨[], by simp [processRules], by simp [processRules], by simp, by simp⟩
  | cons r rs ih =>
    intro st hpw
    rw [List.pairwise_cons] at hpw
    obtain ⟨hhead, htail⟩ := hpw
    by_cases hq : st.queue = []
    · exact ⟨[], by simp [processRules, hq], by simp [processRules, hq], by simp, by simp⟩
    · obtain ⟨ext1, h11, h12, h13, h14⟩ := processRule_geom sl bl u hsl hbl dayBase r st
      obtain ⟨ext2, h21, h22, h23, h24⟩ := ih (processRule sl bl u dayBase r st) htail
      refine ⟨ext1 ++ ext2, ?_, ?_, ?_, ?_⟩
      · simp [processRules, hq, h21, h11]
      · simp [processRules, hq, h22, h12]
      · intro s hs
        rcases List.mem_append.1 hs with hs | hs
        · exact ⟨r, List.mem_cons_self r rs, h13 s hs⟩
        · obtain ⟨r2, hr2, hw⟩ := h23 s hs
          exact ⟨r2, List.mem_cons_of_mem r hr2, hw⟩
      · rw [List.pairwise_append]
        refine ⟨h14.imp ?_, h24, ?_⟩
        · intro s1 s2 h
          exact Or.inl h
        · intro s1 hs1 s2 hs2
          obtain ⟨ha1, ha2, ha3⟩ := h13 s1 hs1
          obtain ⟨r2, hr2, hb1, hb2, hb3⟩ := h23 s2 hs2
          rcases hhead r2 hr2 with hdisj | hdisj
          · exact Or.inl (by omega)
          · exact Or.inr (by omega)

/-- Frame of the day loop: ownership and shape of all new sessions. -/
lemma dayLoop_frame (sl bl : Int) (u : Nat) (rules : List AvailRule) (startDow : Nat) :
    ∀ (days k : Nat) (st : GreedyState),
    ∃ ext : List Session,
      (dayLoop sl bl u rules startDow days k st).dbSessions = st.dbSessions ++ ext ∧
      (dayLoop sl bl u rules startDow days k st).out = st.out ++ ext ∧
      ∀ s ∈ ext, s.userId = u ∧ s.status = SessionStatus.planned ∧
        s.endTime = s.startTime + s.plannedMinutes ∧
        (1 ≤ sl → 0 < s.plannedMinutes ∧ s.plannedMinutes ≤ sl) := by
  intro days
  induction days with
  | zero =>
    intro k st
    exact ⟨[], by simp [dayLoop], by simp [dayLoop], by simp⟩
  | succ days ih =>
    intro k st
    by_cases hq : st.queue = []
    · exact ⟨[], by simp [dayLoop, hq], by simp [dayLoop, hq], by simp⟩
    · obtain ⟨ext1, h11, h12, h13⟩ :=
        processRules_frame sl bl u ((k : Int) * 1440)
          (dayRules rules ((startDow + k) % 7)) st
      obtain ⟨ext2, h21, h22, h23⟩ :=
        ih (k + 1) (processRules sl bl u ((k : Int) * 1440)
          (dayRules rules ((startDow + k) % 7)) st)
      refine ⟨ext1 ++ ext2, ?_, ?_, ?_⟩
      · simp [dayLoop, hq, h21, h11]
      · simp [dayLoop, hq, h22, h12]
      · intro s hs
        rcases List.mem_append.1 hs with hs | hs
        · exact h13 s hs
        · exact h23 s hs

/-- The rules of one day are pairwise time-of-day disjoint when the rule
list is pairwise compatible, because the filtered rules share a weekday. -/
lemma dayRules_pairwise (rules : List AvailRule) (dow : Nat)
    (hrules : rules.Pairwise ruleCompat) :
    (dayRules rules dow).Pairwise
      (fun r1 r2 => r1.endMin ≤ r2.startMin ∨ r2.endMin ≤ r1.startMin) := by
  have hsub : (dayRules rules dow).Sublist rules := List.filter_sublist rules
  have h1 : (dayRules rules dow).Pairwise ruleCompat := hrules.sublist hsub
  refine h1.imp_of_mem ?_
  intro r1 r2 hm1 hm2 hcompat
  apply hcompat
  unfold dayRules at hm1 hm2
  rw [List.mem_filter] at hm1 hm2
  have e1 : r1.dayOfWeek = dow := by
    have := hm1.2
    simpa using this
  have e2 : r2.dayOfWeek = dow := by
    have := hm2.2
    simpa using this
  rw [e1, e2]

/-- Geometry of the day loop: every new session lies inside the window
derived from a rule of its day, with a day index in the processed range,
and, for pairwise compatible rules within a day bound, all new sessions
are pairwise disjoint. -/
lemma dayLoop_geom (sl bl : Int) (u : Nat) (rules : List AvailRule) (startDow : Nat)
    (hsl : 1 ≤ sl) (hbl : 0 ≤ bl)
    (hrules : rules.Pairwise ruleCompat)
    (hbounds : ∀ r ∈ rules, ruleBounds r) :
    ∀ (days k : Nat) (st : GreedyState),
    ∃ ext : List Session,
      (dayLoop sl bl u rules startDow days k st).dbSessions = st.dbSessions ++ ext ∧
      (dayLoop sl bl u rules startDow days k st).out = st.out ++ ext ∧
      (∀ s ∈ ext, ∃ j : Nat, k ≤ j ∧ j < k + days ∧ ∃ r ∈ rules,
        r.dayOfWeek = (startDow + j) % 7 ∧ inRuleWindow j r s) ∧
      ext.Pairwise sessDisj := by
  intro days
  induction days with
  | zero =>
    intro k st
    exact ⟨[], by simp [dayLoop], by simp [dayLoop], by simp, by simp⟩
  | succ days ih =>
    intro k st
    by_cases hq : st.queue = []
    · exact ⟨[], by simp [dayLoop, hq], by simp [dayLoop, hq], by simp, by simp⟩
    · obtain ⟨ext1, h11, h12, h13, h14⟩ :=
        processRules_geom sl bl u hsl hbl ((k : Int) * 1440)
          (dayRules rules ((startDow + k) % 7)) st
          (dayRules_pairwise rules ((startDow + k) % 7) hrules)
      obtain ⟨ext2, h21, h22, h23, h24⟩ :=
        ih (k + 1) (processRules sl bl u ((k : Int) * 1440)
          (dayRules rules ((startDow + k) % 7)) st)
      refine ⟨ext1 ++ ext2, ?_, ?_, ?_, ?_⟩
      · simp [dayLoop, hq, h21, h11]
      · simp [dayLoop, hq, h22, h12]
      · intro s hs
        rcases List.mem_append.1 hs with hs | hs
        · obtain ⟨r, hr, hw⟩ := h13 s hs
          unfold dayRules at hr
          rw [List.mem_filter] at hr
          refine ⟨k, le_refl k, by omega, r, hr.1, by simpa using hr.2, hw⟩
        · obtain ⟨j, hj1, hj2, r, hr, hdow, hw⟩ := h23 s hs
          exact ⟨j, by omega, by omega, r, hr, hdow, hw⟩
      · rw [List.pairwise_append]
        refine ⟨h14, h24, ?_⟩
        intro s1 hs1 s2 hs2
        obtain ⟨r1, hr1, ha1, ha2, ha3⟩ := h13 s1 hs1
        obtain ⟨j, hj1, hj2, r2, hr2, hdow, hb1, hb2, hb3⟩ := h23 s2 hs2
        unfold dayRules at hr1
        rw [List.mem_filter] at hr1
        obtain ⟨hrb1, hrb2⟩ := hbounds r1 hr1.1
        obtain ⟨hsb1, hsb2⟩ := hbounds r2 hr2
        left
        have hk1 : ((k : Int) + 1) * 1440 ≤ (j : Int) * 1440 := by
          have : (k : Int) + 1 ≤ (j : Int) := by omega
          nlinarith
        omega

/-- Shape of a successful run: with schedulable tasks and stored rules,
the endpoint deletes the planned sessions of the user, runs the day loop
from the sorted task queue, stores the resulting sessions collection and
answers with the response list of the loop. -/
lemma generateSchedule_success (user : UserRec) (numDays startDow : Nat) (db : DB)
    (ht : db.tasks.filter (schedulable user.id) ≠ [])
    (hr : db.rules.filter (fun r => r.userId == user.id) ≠ []) :
    generateSchedule (some user) numDays startDow db =
      Except.ok
        (⟨db.tasks, db.rules,
          (dayLoop user.preferredSessionLength user.breakPreference user.id
            (db.rules.filter (fun r => r.userId == user.id)) startDow numDays 0
            ⟨sortTasks (db.tasks.filter (schedulable user.id)),
              deletePlanned user.id db.sessions, []⟩).dbSessions⟩,
         ⟨(dayLoop user.preferredSessionLength user.breakPreference user.id
            (db.rules.filter (fun r => r.userId == user.id)) startDow numDays 0
            ⟨sortTasks (db.tasks.filter (schedulable user.id)),
              deletePlanned user.id db.sessions, []⟩).out,
          ScheduleMessage.created
            (dayLoop user.preferredSessionLength user.breakPreference user.id
              (db.rules.filter (fun r => r.userId == user.id)) startDow numDays 0
              ⟨sortTasks (db.tasks.filter (schedulable user.id)),
                deletePlanned user.id db.sessions, []⟩).out.length⟩) := by
  simp only [generateSchedule]
  rw [if_neg ht, if_neg hr]

/-- Early return of the endpoint when the user has no schedulable task. -/
lemma generateSchedule_no_tasks (user : UserRec) (numDays startDow : Nat) (db : DB)
    (h : db.tasks.filter (schedulable user.id) = []) :
    generateSchedule (some user) numDays startDow db =
      Except.ok (db, ⟨[], ScheduleMessage.noPendingTasks⟩) := by
  simp only [generateSchedule]
  rw [if_pos h]

/-- Early return of the endpoint when the user has schedulable tasks but
no stored availability rule. -/
lemma generateSchedule_no_rules (user : UserRec) (numDays startDow : Nat) (db : DB)
    (h1 : db.tasks.filter (schedulable user.id) ≠ [])
    (h2 : db.rules.filter (fun r => r.userId == user.id) = []) :
    generateSchedule (some user) numDays startDow db =
      Except.ok (db, ⟨[], ScheduleMessage.setAvailabilityFirst⟩) := by
  simp only [generateSchedule]
  rw [if_neg h1, if_pos h2]

/-- C8, confirmed.  A run for an existing user with no schedulable task
returns the empty result with the no-pending-tasks reason; a run with
schedulable tasks but no stored availability rule returns the empty
result with the set-availability-first reason.  Both are ordinary returns
of the endpoint, not exceptions. -/
theorem input_error_empty_result (user : UserRec) (numDays startDow : Nat) (db : DB) :
    (db.tasks.filter (schedulable user.id) = [] →
      generateSchedule (some user) numDays startDow db =
        Except.ok (db, ⟨[], ScheduleMessage.noPendingTasks⟩)) ∧
    (db.tasks.filter (schedulable user.id) ≠ [] →
      db.rules.filter (fun r => r.userId == user.id) = [] →
      generateSchedule (some user) numDays startDow db =
        Except.ok (db, ⟨[], ScheduleMessage.setAvailabilityFirst⟩)) :=
  ⟨generateSchedule_no_tasks user numDays startDow db,
    generateSchedule_no_rules user numDays startDow db⟩

/-- Witness for the input-error theorem: a database with one completed
task and no rules yields the no-pending-tasks result. -/
theorem input_error_empty_result_witness :
    (DB.mk [⟨1, 1, none, TaskStatus.completed, "high", 0, 60, 0⟩] [] []).tasks.filter
      (schedulable 1) = [] ∧
    generateSchedule (some ⟨1, 50, 10⟩) 14 0
        ⟨[⟨1, 1, none, TaskStatus.completed, "high", 0, 60, 0⟩], [], []⟩ =
      Except.ok (⟨[⟨1, 1, none, TaskStatus.completed, "high", 0, 60, 0⟩], [], []⟩,
        ⟨[], ScheduleMessage.noPendingTasks⟩) :=
  ⟨by decide,
    (input_error_empty_result ⟨1, 50, 10⟩ 14 0
      ⟨[⟨1, 1, none, TaskStatus.completed, "high", 0, 60, 0⟩], [], []⟩).1 (by decide)⟩

/-- C10, confirmed.  When the run ends at either input check, the whole
database value, the previously stored planned sessions included, is
returned unchanged: the delete-planned-then-insert step is reached only
after both checks pass. -/
theorem input_error_preserves_sessions (user : UserRec) (numDays startDow : Nat) (db : DB)
    (h : db.tasks.filter (schedulable user.id) = [] ∨
      db.rules.filter (fun r => r.userId == user.id) = []) :
    ∃ m : ScheduleMessage, generateSchedule (some user) numDays startDow db =
      Except.ok (db, ⟨[], m⟩) := by
  by_cases h1 : db.tasks.filter (schedulable user.id) = []
  · exact ⟨ScheduleMessage.noPendingTasks, generateSchedule_no_tasks user numDays startDow db h1⟩
  · have h2 : db.rules.filter (fun r => r.userId == user.id) = [] := by
      rcases h with h | h
      · exact absurd h h1
      · exact h
    exact ⟨ScheduleMessage.setAvailabilityFirst,
      generateSchedule_no_rules user numDays startDow db h1 h2⟩

/-- Witness for the prior-plan-preservation theorem: a database holding a
planned session of another run survives a run with no rules. -/
theorem input_error_preserves_sessions_witness :
    ((DB.mk [⟨1, 1, none, TaskStatus.pending, "high", 0, 60, 0⟩] []
        [⟨1, 9, none, 0, 50, 50, 0, SessionStatus.planned⟩]).rules.filter
      (fun r => r.userId == 1) = []) ∧
    (∃ m : ScheduleMessage, generateSchedule (some ⟨1, 50, 10⟩) 14 0
        ⟨[⟨1, 1, none, TaskStatus.pending, "high", 0, 60, 0⟩], [],
          [⟨1, 9, none, 0, 50, 50, 0, SessionStatus.planned⟩]⟩ =
      Except.ok (⟨[⟨1, 1, none, TaskStatus.pending, "high", 0, 60, 0⟩], [],
        [⟨1, 9, none, 0, 50, 50, 0, SessionStatus.planned⟩]⟩, ⟨[], m⟩)) :=
  ⟨by decide,
    input_error_preserves_sessions ⟨1, 50, 10⟩ 14 0
      ⟨[⟨1, 1, none, TaskStatus.pending, "high", 0, 60, 0⟩], [],
        [⟨1, 9, none, 0, 50, 50, 0, SessionStatus.planned⟩]⟩ (Or.inr (by decide))⟩

/-- Containment only, for the for loop over the rules of one day. -/
lemma processRules_contain (sl bl : Int) (u : Nat) (hsl : 1 ≤ sl) (hbl : 0 ≤ bl)
    (dayBase : Int) :
    ∀ (rs : List AvailRule) (st : GreedyState),
    ∃ ext : List Session,
      (processRules sl bl u dayBase rs st).dbSessions = st.dbSessions ++ ext ∧
      (processRules sl bl u dayBase rs st).out = st.out ++ ext ∧
      (∀ s ∈ ext, ∃ r ∈ rs, inWindow (dayBase + r.startMin) (dayBase + r.endMin) s) := by
  intro rs
  induction rs with
  | nil =>
    intro st
    exact ⟨[], by simp [processRules], by simp [processRules], by simp⟩
  | cons r rs ih =>
    intro st
    by_cases hq : st.queue = []
    · exact ⟨[], by simp [processRules, hq], by simp [processRules, hq], by simp⟩
    · obtain ⟨ext1, h11, h12, h13, -⟩ := processRule_geom sl bl u hsl hbl dayBase r st
      obtain ⟨ext2, h21, h22, h23⟩ := ih (processRule sl bl u dayBase r st)
      refine ⟨ext1 ++ ext2, ?_, ?_, ?_⟩
      · simp [processRules, hq, h21, h11]
      · simp [processRules, hq, h22, h12]
      · intro s hs
        rcases List.mem_append.1 hs with hs | hs
        · exact ⟨r, List.mem_cons_self r rs, h13 s hs⟩
        · obtain ⟨r2, hr2, hw⟩ := h23 s hs
          exact ⟨r2, List.mem_cons_of_mem r hr2, hw⟩

/-- Containment only, for the day loop. -/
lemma dayLoop_contain (sl bl : Int) (u : Nat) (rules : List AvailRule) (startDow : Nat)
    (hsl : 1 ≤ sl) (hbl : 0 ≤ bl) :
    ∀ (days k : Nat) (st : GreedyState),
    ∃ ext : List Session,
      (dayLoop sl bl u rules startDow days k st).dbSessions = st.dbSessions ++ ext ∧
      (dayLoop sl bl u rules startDow days k st).out = st.out ++ ext ∧
      (∀ s ∈ ext, ∃ j : Nat, k ≤ j ∧ j < k + days ∧ ∃ r ∈ rules,
        r.dayOfWeek = (startDow + j) % 7 ∧ inRuleWindow j r s) := by
  intro days
  induction days with
  | zero =>
    intro k st
    exact ⟨[], by simp [dayLoop], by simp [dayLoop], by simp⟩
  | succ days ih =>
    intro k st
    by_cases hq : st.queue = []
    · exact ⟨[], by simp [dayLoop, hq], by simp [dayLoop, hq], by simp⟩
    · obtain ⟨ext1, h11, h12, h13⟩ :=
        processRules_contain sl bl u hsl hbl ((k : Int) * 1440)
          (dayRules rules ((startDow + k) % 7)) st
      obtain ⟨ext2, h21, h22, h23⟩ :=
        ih (k + 1) (processRules sl bl u ((k : Int) * 1440)
          (dayRules rules ((startDow + k) % 7)) st)
      refine ⟨ext1 ++ ext2, ?_, ?_, ?_⟩
      · simp [dayLoop, hq, h21, h11]
      · simp [dayLoop, hq, h22, h12]
      · intro s hs
        rcases List.mem_append.1 hs with hs | hs
        · obtain ⟨r, hr, hw⟩ := h13 s hs
          unfold dayRules at hr
          rw [List.mem_filter] at hr
          refine ⟨k, le_refl k, by omega, r, hr.1, by simpa using hr.2, hw⟩
        · obtain ⟨j, hj1, hj2, r, hr, hdow, hw⟩ := h23 s hs
          exact ⟨j, by omega, by omega, r, hr, hdow, hw⟩

/-- C9, confirmed.  A run that reaches the write step replaces exactly the
planned sessions of the user: the stored collection becomes the old
collection minus the sessions of this user with status planned, plus the
newly generated sessions, all of which belong to the user with status
planned; every session of another user, and every session not in status
planned, survives; tasks and rules are untouched. -/
theorem replace_frame (user : UserRec) (numDays startDow : Nat) (db : DB)
    (ht : db.tasks.filter (schedulable user.id) ≠ [])
    (hr : db.rules.filter (fun r => r.userId == user.id) ≠ []) :
    ∃ ext : List Session,
      generateSchedule (some user) numDays startDow db =
        Except.ok (⟨db.tasks, db.rules, deletePlanned user.id db.sessions ++ ext⟩,
          ⟨ext, ScheduleMessage.created ext.length⟩) ∧
      (∀ s ∈ ext, s.userId = user.id ∧ s.status = SessionStatus.planned) ∧
      (∀ s ∈ db.sessions, s.userId ≠ user.id ∨ s.status ≠ SessionStatus.planned →
        s ∈ deletePlanned user.id db.sessions) ∧
      (∀ s ∈ db.sessions, s ∉ deletePlanned user.id db.sessions →
        s.userId = user.id ∧ s.status = SessionStatus.planned) := by
  obtain ⟨ext, h1, h2, h3⟩ :=
    dayLoop_frame user.preferredSessionLength user.breakPreference user.id
      (db.rules.filter (fun r => r.userId == user.id)) startDow numDays 0
      ⟨sortTasks (db.tasks.filter (schedulable user.id)),
        deletePlanned user.id db.sessions, []⟩
  refine ⟨ext, ?_, ?_, ?_, ?_⟩
  · rw [generateSchedule_success user numDays startDow db ht hr]
    rw [h1, h2]
    simp
  · intro s hs
    obtain ⟨p1, p2, -, -⟩ := h3 s hs
    exact ⟨p1, p2⟩
  · intro s hs hnp
    unfold deletePlanned
    rw [List.mem_filter]
    refine ⟨hs, ?_⟩
    simp
    tauto
  · intro s hs hnot
    by_contra hcon
    apply hnot
    unfold deletePlanned
    rw [List.mem_filter]
    refine ⟨hs, ?_⟩
    simp
    tauto

/-- Witness for the replace theorem: a run over a database holding a
planned session of the user, a completed session of the user, and a
planned session of another user keeps the latter two. -/
theorem replace_frame_witness :
    (DB.mk [⟨1, 1, none, TaskStatus.pending, "urgent", 0, 50, 0⟩] [⟨1, 0, 600, 720⟩]
      [⟨1, 9, none, 0, 50, 50, 0, SessionStatus.planned⟩,
        ⟨1, 8, none, 100, 150, 50, 50, SessionStatus.completed⟩,
        ⟨2, 7, none, 0, 50, 50, 0, SessionStatus.planned⟩]).tasks.filter
      (schedulable 1) ≠ [] ∧
    (∃ ext : List Session,
      generateSchedule (some ⟨1, 50, 10⟩) 1 0
          ⟨[⟨1, 1, none, TaskStatus.pending, "urgent", 0, 50, 0⟩], [⟨1, 0, 600, 720⟩],
            [⟨1, 9, none, 0, 50, 50, 0, SessionStatus.planned⟩,
              ⟨1, 8, none, 100, 150, 50, 50, SessionStatus.completed⟩,
              ⟨2, 7, none, 0, 50, 50, 0, SessionStatus.planned⟩]⟩ =
        Except.ok (⟨[⟨1, 1, none, TaskStatus.pending, "urgent", 0, 50, 0⟩], [⟨1, 0, 600, 720⟩],
          deletePlanned 1
            [⟨1, 9, none, 0, 50, 50, 0, SessionStatus.planned⟩,
              ⟨1, 8, none, 100, 150, 50, 50, SessionStatus.completed⟩,
              ⟨2, 7, none, 0, 50, 50, 0, SessionStatus.planned⟩] ++ ext⟩,
          ⟨ext, ScheduleMessage.created ext.length⟩) ∧
      (∀ s ∈ ext, s.userId = 1 ∧ s.status = SessionStatus.planned) ∧
      (∀ s ∈ [(⟨1, 9, none, 0, 50, 50, 0, SessionStatus.planned⟩ : Session),
          ⟨1, 8, none, 100, 150, 50, 50, SessionStatus.completed⟩,
          ⟨2, 7, none, 0, 50, 50, 0, SessionStatus.planned⟩],
        s.userId ≠ 1 ∨ s.status ≠ SessionStatus.planned →
        s ∈ deletePlanned 1
          [⟨1, 9, none, 0, 50, 50, 0, SessionStatus.planned⟩,
            ⟨1, 8, none, 100, 150, 50, 50, SessionStatus.completed⟩,
            ⟨2, 7, none, 0, 50, 50, 0, SessionStatus.planned⟩]) ∧
      (∀ s ∈ [(⟨1, 9, none, 0, 50, 50, 0, SessionStatus.planned⟩ : Session),
          ⟨1, 8, none, 100, 150, 50, 50, SessionStatus.completed⟩,
          ⟨2, 7, none, 0, 50, 50, 0, SessionStatus.planned⟩],
        s ∉ deletePlanned 1
          [⟨1, 9, none, 0, 50, 50, 0, SessionStatus.planned⟩,
            ⟨1, 8, none, 100, 150, 50, 50, SessionStatus.completed⟩,
            ⟨2, 7, none, 0, 50, 50, 0, SessionStatus.planned⟩] →
        s.userId = 1 ∧ s.status = SessionStatus.planned)) :=
  ⟨by decide,
    replace_frame ⟨1, 50, 10⟩ 1 0
      ⟨[⟨1, 1, none, TaskStatus.pending, "urgent", 0, 50, 0⟩], [⟨1, 0, 600, 720⟩],
        [⟨1, 9, none, 0, 50, 50, 0, SessionStatus.planned⟩,
          ⟨1, 8, none, 100, 150, 50, 50, SessionStatus.completed⟩,
          ⟨2, 7, none, 0, 50, 50, 0, SessionStatus.planned⟩]⟩
      (by decide) (by decide)⟩

/-- C7, confirmed.  Under a positive session length preference, every
session a greedy run emits has strictly positive planned duration and a
strictly increasing interval: a head task without positive remaining
effort is popped before a chunk is sized, so no zero-length session is
ever scheduled. -/
theorem greedy_positive_duration (user : UserRec) (numDays startDow : Nat) (db db2 : DB)
    (res : ScheduleResult) (hsl : 1 ≤ user.preferredSessionLength)
    (hrun : generateSchedule (some user) numDays startDow db = Except.ok (db2, res)) :
    ∀ s ∈ res.sessions, 0 < s.plannedMinutes ∧ s.startTime < s.endTime := by
  by_cases ht : db.tasks.filter (schedulable user.id) = []
  · rw [generateSchedule_no_tasks user numDays startDow db ht] at hrun
    simp only [Except.ok.injEq, Prod.mk.injEq] at hrun
    obtain ⟨-, hres⟩ := hrun
    rw [← hres]
    intro s hs
    simp at hs
  · by_cases hr2 : db.rules.filter (fun r => r.userId == user.id) = []
    · rw [generateSchedule_no_rules user numDays startDow db ht hr2] at hrun
      simp only [Except.ok.injEq, Prod.mk.injEq] at hrun
      obtain ⟨-, hres⟩ := hrun
      rw [← hres]
      intro s hs
      simp at hs
    · obtain ⟨ext, h1, h2, h3⟩ :=
        dayLoop_frame user.preferredSessionLength user.breakPreference user.id
          (db.rules.filter (fun r => r.userId == user.id)) startDow numDays 0
          ⟨sortTasks (db.tasks.filter (schedulable user.id)),
            deletePlanned user.id db.sessions, []⟩
      rw [generateSchedule_success user numDays startDow db ht hr2] at hrun
      simp only [Except.ok.injEq, Prod.mk.injEq] at hrun
      obtain ⟨-, hres⟩ := hrun
      rw [← hres]
      intro s hs
      simp only [h2, List.nil_append] at hs
      obtain ⟨-, -, hq3, hq4⟩ := h3 s hs
      obtain ⟨hpos, -⟩ := hq4 hsl
      exact ⟨hpos, by omega⟩

/-- Witness for the positive-duration theorem: the run of the single-task
database emits exactly the session from 600 to 650, of 50 minutes. -/
theorem greedy_positive_duration_witness :
    (1 : Int) ≤ (UserRec.mk 1 50 10).preferredSessionLength ∧
    ∀ s ∈ (ScheduleResult.mk [⟨1, 1, none, 600, 650, 50, 0, SessionStatus.planned⟩]
        (ScheduleMessage.created 1)).sessions,
      0 < s.plannedMinutes ∧ s.startTime < s.endTime :=
  ⟨by decide,
    greedy_positive_duration ⟨1, 50, 10⟩ 1 0
      ⟨[⟨1, 1, none, TaskStatus.pending, "urgent", 0, 50, 0⟩], [⟨1, 0, 600, 720⟩], []⟩
      ⟨[⟨1, 1, none, TaskStatus.pending, "urgent", 0, 50, 0⟩], [⟨1, 0, 600, 720⟩],
        [⟨1, 1, none, 600, 650, 50, 0, SessionStatus.planned⟩]⟩
      ⟨[⟨1, 1, none, 600, 650, 50, 0, SessionStatus.planned⟩], ScheduleMessage.created 1⟩
      (by decide) rfl⟩

/-- C5, confirmed.  An iteration of the inner window loop whose head task
has positive remaining effort schedules one chunk of size
min(session length, task remaining, window remaining) at the cursor,
appends it to the sessions collection and the response list, and
continues with the cursor advanced by the chunk duration plus the break
length, the window remainder decreased by the same amount, and the head
task remaining effort decreased by the chunk duration, the task being
dequeued when its remaining effort reaches zero. -/
theorem greedy_window_step (sl bl : Int) (u : Nat) (fuel : Nat) (cur avail : Int)
    (t : DBTask) (rest : List DBTask) (dbS outS : List Session)
    (hav : sl ≤ avail) (hrem : 0 < taskRemaining t) :
    windowLoop sl bl u (fuel + 1) cur avail ⟨t :: rest, dbS, outS⟩ =
      windowLoop sl bl u fuel
        (cur + min sl (min (taskRemaining t) avail) + bl)
        (avail - (min sl (min (taskRemaining t) avail) + bl))
        ⟨if t.estimatedMinutes ≤ t.completedMinutes + min sl (min (taskRemaining t) avail)
            then rest
            else { t with completedMinutes :=
              t.completedMinutes + min sl (min (taskRemaining t) avail) } :: rest,
          dbS ++ [mkPlanned u t cur (min sl (min (taskRemaining t) avail))],
          outS ++ [mkPlanned u t cur (min sl (min (taskRemaining t) avail))]⟩ ∧
    (mkPlanned u t cur (min sl (min (taskRemaining t) avail))).startTime = cur ∧
    (mkPlanned u t cur (min sl (min (taskRemaining t) avail))).plannedMinutes =
      min sl (min (taskRemaining t) avail) ∧
    taskRemaining { t with completedMinutes :=
        t.completedMinutes + min sl (min (taskRemaining t) avail) } =
      taskRemaining t - min sl (min (taskRemaining t) avail) := by
  have hne : ¬ taskRemaining t ≤ 0 := by omega
  refine ⟨?_, rfl, rfl, ?_⟩
  · simp [windowLoop, hav, hne]
  · unfold taskRemaining
    simp only
    omega

/-- Witness for the window-step theorem at a concrete state: session
length 50, break 10, a window remainder of 120 minutes, and a head task
with 120 minutes remaining. -/
theorem greedy_window_step_witness :
    (50 : Int) ≤ 120 ∧
    0 < taskRemaining ⟨1, 1, none, TaskStatus.pending, "urgent", 0, 120, 0⟩ ∧
    windowLoop 50 10 1 (4 + 1) 600 120
        ⟨[⟨1, 1, none, TaskStatus.pending, "urgent", 0, 120, 0⟩], [], []⟩ =
      windowLoop 50 10 1 4
        (600 + min 50 (min (taskRemaining ⟨1, 1, none, TaskStatus.pending, "urgent", 0, 120, 0⟩) 120) + 10)
        (120 - (min 50 (min (taskRemaining ⟨1, 1, none, TaskStatus.pending, "urgent", 0, 120, 0⟩) 120) + 10))
        ⟨if (120 : Int) ≤ 0 + min 50 (min (taskRemaining ⟨1, 1, none, TaskStatus.pending, "urgent", 0, 120, 0⟩) 120)
            then []
            else ⟨1, 1, none, TaskStatus.pending, "urgent", 0, 120,
              0 + min 50 (min (taskRemaining ⟨1, 1, none, TaskStatus.pending, "urgent", 0, 120, 0⟩) 120)⟩ :: [],
          [] ++ [mkPlanned 1 ⟨1, 1, none, TaskStatus.pending, "urgent", 0, 120, 0⟩ 600
            (min 50 (min (taskRemaining ⟨1, 1, none, TaskStatus.pending, "urgent", 0, 120, 0⟩) 120))],
          [] ++ [mkPlanned 1 ⟨1, 1, none, TaskStatus.pending, "urgent", 0, 120, 0⟩ 600
            (min 50 (min (taskRemaining ⟨1, 1, none, TaskStatus.pending, "urgent", 0, 120, 0⟩) 120))]⟩ :=
  ⟨by decide, by decide,
    (greedy_window_step 50 10 1 4 600 120
      ⟨1, 1, none, TaskStatus.pending, "urgent", 0, 120, 0⟩ [] [] []
      (by decide) (by decide)).1⟩

/-- C2, amended.  On the optimal path every model solution over tasks
with positive estimates yields pairwise disjoint sessions.  On the greedy
path the sessions of one run are pairwise disjoint provided the windows
derived from rules of the same weekday are pairwise disjoint, each rule
window lies inside one day, the session length preference is positive and
the break preference nonnegative; without the disjoint-rule proviso the
greedy path can emit overlapping sessions. -/
theorem no_overlap_invariant
    (horizon pref : Int) (windows : List (Int × Int)) (tasks : List CpTask)
    (starts : List Int) (user : UserRec) (numDays startDow : Nat) (db db2 : DB)
    (res : ScheduleResult)
    (hp : 1 ≤ pref)
    (hest : ∀ t ∈ tasks, 1 ≤ t.estimatedMinutes)
    (hcp : cpModelOk horizon windows (cpChunks pref tasks) starts)
    (hsl : 1 ≤ user.preferredSessionLength)
    (hbl : 0 ≤ user.breakPreference)
    (hrules : (db.rules.filter (fun r => r.userId == user.id)).Pairwise ruleCompat)
    (hbounds : ∀ r ∈ db.rules.filter (fun r => r.userId == user.id), ruleBounds r)
    (hrun : generateSchedule (some user) numDays startDow db = Except.ok (db2, res)) :
    (cpExtract (cpChunks pref tasks) starts).Pairwise outDisj ∧
    res.sessions.Pairwise sessDisj := by
  constructor
  · exact cp_no_overlap horizon windows (cpChunks pref tasks) starts hcp
      (cpChunks_duration_pos pref tasks hp hest)
  · by_cases ht : db.tasks.filter (schedulable user.id) = []
    · rw [generateSchedule_no_tasks user numDays startDow db ht] at hrun
      simp only [Except.ok.injEq, Prod.mk.injEq] at hrun
      obtain ⟨-, hres⟩ := hrun
      rw [← hres]
      simp
    · by_cases hr2 : db.rules.filter (fun r => r.userId == user.id) = []
      · rw [generateSchedule_no_rules user numDays startDow db ht hr2] at hrun
        simp only [Except.ok.injEq, Prod.mk.injEq] at hrun
        obtain ⟨-, hres⟩ := hrun
        rw [← hres]
        simp
      · obtain ⟨ext, h1, h2, h3, h4⟩ :=
          dayLoop_geom user.preferredSessionLength user.breakPreference user.id
            (db.rules.filter (fun r => r.userId == user.id)) startDow hsl hbl hrules hbounds
            numDays 0
            ⟨sortTasks (db.tasks.filter (schedulable user.id)),
              deletePlanned user.id db.sessions, []⟩
        rw [generateSchedule_success user numDays startDow db ht hr2] at hrun
        simp only [Except.ok.injEq, Prod.mk.injEq] at hrun
        obtain ⟨-, hres⟩ := hrun
        rw [← hres]
        simp only [h2, List.nil_append]
        exact h4

/-- Witness for the amended no-overlap theorem: a two-chunk model
solution and the concrete greedy run of the single-task database. -/
theorem no_overlap_invariant_witness :
    cpModelOk 240 [(0, 240)] (cpChunks 50 [⟨1, 240, 80, "high", none⟩]) [0, 60] ∧
    ((cpExtract (cpChunks 50 [⟨1, 240, 80, "high", none⟩]) [0, 60]).Pairwise outDisj ∧
      (ScheduleResult.mk [⟨1, 1, none, 600, 650, 50, 0, SessionStatus.planned⟩]
        (ScheduleMessage.created 1)).sessions.Pairwise sessDisj) :=
  ⟨by decide,
    no_overlap_invariant 240 50 [(0, 240)] [⟨1, 240, 80, "high", none⟩] [0, 60]
      ⟨1, 50, 10⟩ 1 0
      ⟨[⟨1, 1, none, TaskStatus.pending, "urgent", 0, 50, 0⟩], [⟨1, 0, 600, 720⟩], []⟩
      ⟨[⟨1, 1, none, TaskStatus.pending, "urgent", 0, 50, 0⟩], [⟨1, 0, 600, 720⟩],
        [⟨1, 1, none, 600, 650, 50, 0, SessionStatus.planned⟩]⟩
      ⟨[⟨1, 1, none, 600, 650, 50, 0, SessionStatus.planned⟩], ScheduleMessage.created 1⟩
      (by decide) (by decide) (by decide) (by decide) (by decide) (by decide) (by decide)
      rfl⟩

/-- C3, confirmed.  On the optimal path, every model solution places every
extracted session inside one of the availability windows whenever at
least one window exists.  On the greedy path, under a positive session
length and a nonnegative break preference, every emitted session lies
fully inside the window derived from a stored rule of the user placed on
a day of the processed horizon. -/
theorem session_window_containment
    (horizon : Int) (windows : List (Int × Int)) (chunks : List CpChunk)
    (starts : List Int) (user : UserRec) (numDays startDow : Nat) (db db2 : DB)
    (res : ScheduleResult)
    (hcp : cpModelOk horizon windows chunks starts) (hw : windows ≠ [])
    (hsl : 1 ≤ user.preferredSessionLength)
    (hbl : 0 ≤ user.breakPreference)
    (hrun : generateSchedule (some user) numDays startDow db = Except.ok (db2, res)) :
    (∀ o ∈ cpExtract chunks starts, ∃ w ∈ windows, w.1 ≤ o.startTime ∧ o.endTime ≤ w.2) ∧
    (∀ s ∈ res.sessions, ∃ j : Nat, j < numDays ∧ ∃ r ∈ db.rules,
      r.userId = user.id ∧ r.dayOfWeek = (startDow + j) % 7 ∧ inRuleWindow j r s) := by
  constructor
  · exact cp_containment horizon windows chunks starts hcp hw
  · by_cases ht : db.tasks.filter (schedulable user.id) = []
    · rw [generateSchedule_no_tasks user numDays startDow db ht] at hrun
      simp only [Except.ok.injEq, Prod.mk.injEq] at hrun
      obtain ⟨-, hres⟩ := hrun
      rw [← hres]
      intro s hs
      simp at hs
    · by_cases hr2 : db.rules.filter (fun r => r.userId == user.id) = []
      · rw [generateSchedule_no_rules user numDays startDow db ht hr2] at hrun
        simp only [Except.ok.injEq, Prod.mk.injEq] at hrun
        obtain ⟨-, hres⟩ := hrun
        rw [← hres]
        intro s hs
        simp at hs
      · obtain ⟨ext, h1, h2, h3⟩ :=
          dayLoop_contain user.preferredSessionLength user.breakPreference user.id
            (db.rules.filter (fun r => r.userId == user.id)) startDow hsl hbl
            numDays 0
            ⟨sortTasks (db.tasks.filter (schedulable user.id)),
              deletePlanned user.id db.sessions, []⟩
        rw [generateSchedule_success user numDays startDow db ht hr2] at hrun
        simp only [Except.ok.injEq, Prod.mk.injEq] at hrun
        obtain ⟨-, hres⟩ := hrun
        rw [← hres]
        intro s hs
        simp only [h2, List.nil_append] at hs
        obtain ⟨j, hj0, hjlt, r, hr, hdow, hw2⟩ := h3 s hs
        rw [List.mem_filter] at hr
        refine ⟨j, by omega, r, hr.1, by simpa using hr.2, hdow, hw2⟩

/-- Witness for the containment theorem: a one-chunk model solution inside
the only window and the concrete greedy run of the single-task database. -/
theorem session_window_containment_witness :
    cpModelOk 240 [(0, 240)] (cpChunks 50 [⟨1, 240, 50, "high", none⟩]) [0] ∧
    ((∀ o ∈ cpExtract (cpChunks 50 [⟨1, 240, 50, "high", none⟩]) [0],
        ∃ w ∈ [((0 : Int), (240 : Int))], w.1 ≤ o.startTime ∧ o.endTime ≤ w.2) ∧
      (∀ s ∈ (ScheduleResult.mk [⟨1, 1, none, 600, 650, 50, 0, SessionStatus.planned⟩]
          (ScheduleMessage.created 1)).sessions,
        ∃ j : Nat, j < 1 ∧ ∃ r ∈ [(⟨1, 0, 600, 720⟩ : AvailRule)],
          r.userId = 1 ∧ r.dayOfWeek = (0 + j) % 7 ∧ inRuleWindow j r s)) :=
  ⟨by decide,
    session_window_containment 240 [(0, 240)] (cpChunks 50 [⟨1, 240, 50, "high", none⟩]) [0]
      ⟨1, 50, 10⟩ 1 0
      ⟨[⟨1, 1, none, TaskStatus.pending, "urgent", 0, 50, 0⟩], [⟨1, 0, 600, 720⟩], []⟩
      ⟨[⟨1, 1, none, TaskStatus.pending, "urgent", 0, 50, 0⟩], [⟨1, 0, 600, 720⟩],
        [⟨1, 1, none, 600, 650, 50, 0, SessionStatus.planned⟩]⟩
      ⟨[⟨1, 1, none, 600, 650, 50, 0, SessionStatus.planned⟩], ScheduleMessage.created 1⟩
      (by decide) (by decide) (by decide) (by decide) rfl⟩

end SmartStudy
